import Mathlib

/-!
# Verification of the `throughput` package

A shallow embedding of the `throughput` Go package (rate-limited `io.Reader`
and `io.Writer` decorators) together with proofs about its behaviour.

The authoritative sources embedded here are the fixed-decorator variant of
`throughput.go` (the `Limiter` interface with a single `Wait(ctx, n)` method,
`Reader.Read`, `Writer.Write`, `DisableableLimiter`) and the
`RateLimiterAdapter` file.  The historical variant that probes dynamically for
an `Enabler` capability is superseded and is not the subject of the claims it
appears in, except as a contrast.

Modelling conventions:
* Go `int` values become `Int` (sizes, token counts) or `Nat` (byte counts
  known non-negative).
* Byte buffers become `List Nat`.
* Time is measured in refill ticks of the token bucket, normalising the
  bucket's refill rate to one token per tick; delays are integer tick counts.
* The `rate.Limiter` token bucket is an external dependency whose source is
  not part of this repository, so it is modelled from the spec (see
  `Bucket`, `reserveN`, `advanceBucket`, `cancelReservation` below).
* Each operation returns an explicit trace of observable events, so that
  ordering properties (wait before/after write, limiter interaction or not,
  reservation decomposition) are stated about traces.
* The adapter's unbounded retry loop is embedded with explicit fuel; a result
  of `none` means the loop has not returned within that much fuel, and a
  theorem `∀ fuel, ... = none` expresses non-termination.
-/

namespace Throughput

/-- Cancellation error produced by a context (`ctx.Err()`). -/
inductive CtxErr
  | cancelled
deriving Repr, DecidableEq

/-- Errors flowing through the package: underlying stream I/O errors,
context cancellation, the wrapped errors built by `Reader.Read` /
`Writer.Write` (`fmt.Errorf("waiting after reading %d bytes: %w", ...)`),
and a marker for a `Wait` that never returns (fuel exhaustion in the model). -/
inductive Err
  | ioErr (code : Nat)
  | ctx (e : CtxErr)
  | wrapWaitingAfterReading (n : Nat) (e : Err)
  | wrapWaitingAfterWriting (n : Nat) (e : Err)
  | neverReturns
deriving Repr, DecidableEq

/-- Modelled from the spec: the token-bucket state behind
`golang.org/x/time/rate.Limiter`, an external dependency whose source is not
in this repository.  Per the spec's data model it has a capacity (`burst`) and
a current level; the refill rate is normalised to one token per tick, so the
level refills by one per elapsed tick, capped at `burst`.  The level may go
negative: a reservation is a "provisional grant of future capacity", i.e. it
consumes tokens immediately and reports a delay until the deficit refills. -/
structure Bucket where
  burst : Int
  level : Int
deriving Repr, DecidableEq

/-- Modelled from the spec: the reservation primitive (`rate.Limiter.ReserveN`).
"Given an amount and a timestamp, either grants a reservation with a
delay-until-available or fails if the amount exceeds current burst capacity."
On a grant the amount is consumed at once and the delay is the time until the
bucket level would have reached the requested amount. -/
def reserveN (b : Bucket) (n : Int) : Option (Int × Bucket) :=
  if b.burst < n then none
  else some (max 0 (n - b.level), { b with burst := b.burst, level := b.level - n })

/-- Modelled from the spec: the passage of `d` ticks refills the bucket at one
token per tick, capped at the burst capacity. -/
def advanceBucket (b : Bucket) (d : Int) : Bucket :=
  { b with level := min b.burst (b.level + d) }

/-- Modelled from the spec: cancelling a not-yet-elapsed reservation
(`Reservation.Cancel`) rolls it back, restoring the reserved amount. -/
def cancelReservation (b : Bucket) (n : Int) : Bucket :=
  { b with level := b.level + n }

/-- Observable events of one `RateLimiterAdapter.Wait` call. -/
inductive AEvent
  | reserveOk (nn d : Int)
  | reserveRejected (nn : Int)
  | burstQuery (b : Int)
  | sleep (d : Int)
  | cancelReservation (nn : Int)
deriving Repr, DecidableEq

/-- The chunk size requested in one iteration of the adapter loop:
`min(burst, n)` where the ceiling starts at `math.MaxInt` (modelled as `none`,
i.e. unbounded) and becomes the real burst capacity after a refresh. -/
def chunkOf (ceiling : Option Int) (n : Int) : Int :=
  match ceiling with
  | none => n
  | some c => min c n

/-- Embedding of `RateLimiterAdapter.Wait` (the loop in the adapter source).
`fuel` bounds the number of loop iterations (`none` = still looping after
`fuel` iterations); `cancelAt k` tells whether the context fires during the
`k`-th sleep (the `select` is only reached when the reservation's delay is
positive, exactly as in the source); `ceiling` is the local `burst` variable
(`none` = the initial `math.MaxInt`); `n` is the remaining amount. -/
def adapterWait : Nat → (Nat → Bool) → Nat → Option Int → Int → Bucket →
    Option (List AEvent × Except CtxErr Unit × Bucket)
  | 0, _, _, _, _, _ => none
  | fuel+1, cancelAt, idx, ceiling, n, b =>
    let nn := chunkOf ceiling n
    match reserveN b nn with
    | none =>
      -- rejected: nn exceeds the real burst capacity; refresh the ceiling
      -- via the (locking) Burst() query and retry, nothing consumed
      match adapterWait fuel cancelAt idx (some b.burst) n b with
      | none => none
      | some (tr, r, b') =>
        some (AEvent.reserveRejected nn :: AEvent.burstQuery b.burst :: tr, r, b')
    | some (d, b1) =>
      if 0 < d then
        if cancelAt idx then
          -- ctx.Done() fires first: res.Cancel(); return ctx.Err()
          some ([AEvent.reserveOk nn d, AEvent.cancelReservation nn],
                Except.error CtxErr.cancelled, cancelReservation b1 nn)
        else
          if n - nn ≤ 0 then
            some ([AEvent.reserveOk nn d, AEvent.sleep d], Except.ok (),
                  advanceBucket b1 d)
          else
            match adapterWait fuel cancelAt (idx+1) ceiling (n - nn)
                (advanceBucket b1 d) with
            | none => none
            | some (tr, r, b') =>
              some (AEvent.reserveOk nn d :: AEvent.sleep d :: tr, r, b')
      else
        if n - nn ≤ 0 then
          some ([AEvent.reserveOk nn d], Except.ok (), b1)
        else
          match adapterWait fuel cancelAt idx ceiling (n - nn) b1 with
          | none => none
          | some (tr, r, b') => some (AEvent.reserveOk nn d :: tr, r, b')

/-- Sizes of the granted reservations in a trace, in order. -/
def grantedSizes (tr : List AEvent) : List Int :=
  tr.filterMap fun e =>
    match e with
    | AEvent.reserveOk nn _ => some nn
    | _ => none

/-- Sizes of the rejected reservation requests in a trace, in order. -/
def rejectedSizes (tr : List AEvent) : List Int :=
  tr.filterMap fun e =>
    match e with
    | AEvent.reserveRejected nn => some nn
    | _ => none

/-- Results of the burst-capacity queries in a trace, in order. -/
def queries (tr : List AEvent) : List Int :=
  tr.filterMap fun e =>
    match e with
    | AEvent.burstQuery c => some c
    | _ => none

/-- Positive sleep durations in a trace, in order. -/
def sleeps (tr : List AEvent) : List Int :=
  tr.filterMap fun e =>
    match e with
    | AEvent.sleep d => some d
    | _ => none

/-- Number of reservation roll-backs (refunds) in a trace. -/
def cancelCount (tr : List AEvent) : Nat :=
  tr.countP fun e =>
    match e with
    | AEvent.cancelReservation _ => true
    | _ => false

/-- The decomposition of `n` units into sequential chunks of at most `b`
each, every chunk being `min(b, remaining)`: the reservation sizes the
adapter issues once its ceiling equals the real burst capacity `b`. -/
def chunksZ (b n : Int) : List Int :=
  if _h : 1 ≤ b ∧ 1 ≤ n then min b n :: chunksZ b (n - min b n) else []
termination_by n.toNat
decreasing_by
  omega

/-- A `Limiter` as seen by `Reader`/`Writer`: `Wait(ctx, n)` as a function of
the waited amount, `none` meaning a nil error.  The context is part of the
function (a limiter paired with the stream's context). -/
def Lim : Type := Nat → Option Err

/-- Packaging an `adapterWait` run as a `Limiter` for `Reader`/`Writer`:
success and cancellation map to the obvious results, and a run that never
returns (fuel exhaustion at any reasonable fuel) is marked `Err.neverReturns`. -/
def adapterLimiter (b : Bucket) : Lim := fun n =>
  match adapterWait (n + 2) (fun _ => false) 0 none (n : Int) b with
  | some (_, Except.ok _, _) => none
  | some (_, Except.error e, _) => some (Err.ctx e)
  | none => some Err.neverReturns

/-- Observable events of one `Writer.Write` call. -/
inductive WEvent
  | underlyingWrite (chunk : List Nat) (accepted : Nat)
  | limiterWait (n : Nat)
deriving Repr, DecidableEq

/-- Embedding of `Writer.Write` (fixed-decorator variant, the authoritative
one): a single underlying write of the whole buffer, then — only if that write
succeeded — one limiter wait for the written count, whose failure is wrapped
as "waiting after writing n bytes".  `dst` models the underlying
`io.Writer.Write` as a function of the offered buffer, returning the accepted
count and an optional error. -/
def writerWrite (dst : List Nat → Nat × Option Err) (lim : Lim) (p : List Nat) :
    List WEvent × Nat × Option Err :=
  let r := dst p
  match r.2 with
  | some e => ([WEvent.underlyingWrite p r.1], r.1, some e)
  | none =>
    match lim r.1 with
    | some e => ([WEvent.underlyingWrite p r.1, WEvent.limiterWait r.1], r.1,
                 some (Err.wrapWaitingAfterWriting r.1 e))
    | none => ([WEvent.underlyingWrite p r.1, WEvent.limiterWait r.1], r.1, none)

/-- Sizes of the buffers offered to the underlying writer, in order. -/
def writeSizes (tr : List WEvent) : List Nat :=
  tr.filterMap fun e =>
    match e with
    | WEvent.underlyingWrite chunk _ => some chunk.length
    | _ => none

/-- The bytes actually delivered to the underlying writer: for each underlying
write, the accepted prefix of the offered chunk, concatenated in order. -/
def writtenBytes (tr : List WEvent) : List Nat :=
  (tr.filterMap fun e =>
    match e with
    | WEvent.underlyingWrite chunk accepted => some (chunk.take accepted)
    | _ => none).flatten

/-- `true` iff every underlying-write event in the trace is preceded by some
limiter-wait event (scanning left to right; `seenWait` records whether a wait
has already occurred). -/
def waitBeforeEveryWrite : Bool → List WEvent → Bool
  | _, [] => true
  | _, WEvent.limiterWait _ :: rest => waitBeforeEveryWrite true rest
  | seenWait, WEvent.underlyingWrite _ _ :: rest =>
      seenWait && waitBeforeEveryWrite seenWait rest

/-- Observable events of one `Reader.Read` call. -/
inductive REvent
  | underlyingRead (bytes : List Nat) (err : Option Err)
  | limiterWait (n : Nat)
deriving Repr, DecidableEq

/-- Embedding of `Reader.Read` (fixed-decorator variant): one underlying read,
whose failure returns the partial count and the error verbatim with no limiter
interaction; otherwise one limiter wait for the read count, whose failure is
wrapped as "waiting after reading n bytes".  `src` models the outcome of the
underlying `io.Reader.Read` call: the bytes produced and an optional error. -/
def readerRead (src : List Nat × Option Err) (lim : Lim) :
    List REvent × Nat × Option Err :=
  match src.2 with
  | some e => ([REvent.underlyingRead src.1 (some e)], src.1.length, some e)
  | none =>
    match lim src.1.length with
    | some e => ([REvent.underlyingRead src.1 none, REvent.limiterWait src.1.length],
                 src.1.length, some (Err.wrapWaitingAfterReading src.1.length e))
    | none => ([REvent.underlyingRead src.1 none, REvent.limiterWait src.1.length],
               src.1.length, none)

/-- Number of limiter interactions in a `Reader.Read` trace. -/
def readerWaitCount (tr : List REvent) : Nat :=
  tr.countP fun e =>
    match e with
    | REvent.limiterWait _ => true
    | _ => false

/-- Embedding of `DisableableLimiter`: an atomic `disabled` flag plus the
wrapped `Limiter`. -/
structure DisableableLimiter where
  disabled : Bool
  wrapped : Lim

/-- Embedding of `NewDisableableLimiter`: only the wrapped limiter is set, so
the `disabled` flag keeps the zero value of `atomic.Bool`, which is `false`. -/
def newDisableableLimiter (wrapping : Lim) : DisableableLimiter :=
  { disabled := false, wrapped := wrapping }

/-- Embedding of `DisableableLimiter.Wait`.  The returned `Bool` records
whether the wrapped limiter was invoked (the wrapped call is the only place a
wait could block, so `false` also means the call cannot block). -/
def DisableableLimiter.wait (e : DisableableLimiter) (n : Nat) :
    Bool × Option Err :=
  if e.disabled then (false, none) else (true, e.wrapped n)

/-- Embedding of `DisableableLimiter.SetEnabled`: stores the negation of
`enabled` into the flag. -/
def DisableableLimiter.setEnabled (e : DisableableLimiter) (enabled : Bool) :
    DisableableLimiter :=
  { e with disabled := !enabled }

/-- An underlying writer that accepts everything offered without error
(such as the `bytes.Buffer` used in `TestWrite`). -/
def acceptAllWriter : List Nat → Nat × Option Err := fun q => (q.length, none)

/-- An enabled `DisableableLimiter` whose wrapped limiter always succeeds,
used as a concrete enabled limiter for the `Writer` counterexamples. -/
def enabledNoopLimiter : Lim := fun n =>
  ((newDisableableLimiter fun _ => none).wait n).2

/-- The 2048-byte buffer of the spec's chunking example. -/
def p2048 : List Nat := List.replicate 2048 0

/-! ## Theorems for the claims -/

/-- Unfolding `advanceBucket` on a literal bucket. -/
theorem advanceBucket_mk (c l d : Int) :
    advanceBucket ⟨c, l⟩ d = ⟨c, min c (l + d)⟩ := rfl

/-- One-step unfolding of `adapterWait`: the rejected-reservation branch. -/
theorem adapterWait_step_rejected (fuel idx : Nat) (cancelAt : Nat → Bool)
    (ceiling : Option Int) (n : Int) (b : Bucket)
    (h : reserveN b (chunkOf ceiling n) = none) :
    adapterWait (fuel+1) cancelAt idx ceiling n b =
      match adapterWait fuel cancelAt idx (some b.burst) n b with
      | none => none
      | some (tr, r, b') =>
        some (AEvent.reserveRejected (chunkOf ceiling n) ::
              AEvent.burstQuery b.burst :: tr, r, b') := by
  simp only [adapterWait, h]

/-- One-step unfolding of `adapterWait`: granted with a positive delay and
the context fires during the sleep. -/
theorem adapterWait_step_cancel (fuel idx : Nat) (cancelAt : Nat → Bool)
    (ceiling : Option Int) (n d : Int) (b b1 : Bucket)
    (h : reserveN b (chunkOf ceiling n) = some (d, b1)) (hd : 0 < d)
    (hc : cancelAt idx = true) :
    adapterWait (fuel+1) cancelAt idx ceiling n b =
      some ([AEvent.reserveOk (chunkOf ceiling n) d,
             AEvent.cancelReservation (chunkOf ceiling n)],
            Except.error CtxErr.cancelled,
            cancelReservation b1 (chunkOf ceiling n)) := by
  simp only [adapterWait, h, if_pos hd, hc, if_true]

/-- One-step unfolding of `adapterWait`: granted with a positive delay, slept
out, and the remaining amount reaches zero. -/
theorem adapterWait_step_sleep_done (fuel idx : Nat) (cancelAt : Nat → Bool)
    (ceiling : Option Int) (n d : Int) (b b1 : Bucket)
    (h : reserveN b (chunkOf ceiling n) = some (d, b1)) (hd : 0 < d)
    (hc : cancelAt idx = false) (ht : n - chunkOf ceiling n ≤ 0) :
    adapterWait (fuel+1) cancelAt idx ceiling n b =
      some ([AEvent.reserveOk (chunkOf ceiling n) d, AEvent.sleep d],
            Except.ok (), advanceBucket b1 d) := by
  simp only [adapterWait, h, if_pos hd, hc, Bool.false_eq_true, if_false,
    if_pos ht]

/-- One-step unfolding of `adapterWait`: granted with a positive delay, slept
out, and the loop continues on the remainder. -/
theorem adapterWait_step_sleep_next (fuel idx : Nat) (cancelAt : Nat → Bool)
    (ceiling : Option Int) (n d : Int) (b b1 : Bucket)
    (h : reserveN b (chunkOf ceiling n) = some (d, b1)) (hd : 0 < d)
    (hc : cancelAt idx = false) (ht : ¬ n - chunkOf ceiling n ≤ 0) :
    adapterWait (fuel+1) cancelAt idx ceiling n b =
      match adapterWait fuel cancelAt (idx+1) ceiling (n - chunkOf ceiling n)
          (advanceBucket b1 d) with
      | none => none
      | some (tr, r, b') =>
        some (AEvent.reserveOk (chunkOf ceiling n) d :: AEvent.sleep d :: tr,
              r, b') := by
  simp only [adapterWait, h, if_pos hd, hc, Bool.false_eq_true, if_false,
    if_neg ht]

/-- One-step unfolding of `adapterWait`: granted with no delay and the
remaining amount reaches zero. -/
theorem adapterWait_step_nosleep_done (fuel idx : Nat) (cancelAt : Nat → Bool)
    (ceiling : Option Int) (n d : Int) (b b1 : Bucket)
    (h : reserveN b (chunkOf ceiling n) = some (d, b1)) (hd : ¬ 0 < d)
    (ht : n - chunkOf ceiling n ≤ 0) :
    adapterWait (fuel+1) cancelAt idx ceiling n b =
      some ([AEvent.reserveOk (chunkOf ceiling n) d], Except.ok (), b1) := by
  simp only [adapterWait, h, if_neg hd, if_pos ht]

/-- One-step unfolding of `adapterWait`: granted with no delay and the loop
continues on the remainder. -/
theorem adapterWait_step_nosleep_next (fuel idx : Nat) (cancelAt : Nat → Bool)
    (ceiling : Option Int) (n d : Int) (b b1 : Bucket)
    (h : reserveN b (chunkOf ceiling n) = some (d, b1)) (hd : ¬ 0 < d)
    (ht : ¬ n - chunkOf ceiling n ≤ 0) :
    adapterWait (fuel+1) cancelAt idx ceiling n b =
      match adapterWait fuel cancelAt idx ceiling (n - chunkOf ceiling n) b1 with
      | none => none
      | some (tr, r, b') =>
        some (AEvent.reserveOk (chunkOf ceiling n) d :: tr, r, b') := by
  simp only [adapterWait, h, if_neg hd, if_neg ht]

/-- `grantedSizes` on the empty trace. -/
@[simp] theorem grantedSizes_nil : grantedSizes [] = [] := rfl

/-- `grantedSizes` past a granted reservation. -/
@[simp] theorem grantedSizes_cons_ok (nn d : Int) (tr : List AEvent) :
    grantedSizes (AEvent.reserveOk nn d :: tr) = nn :: grantedSizes tr := rfl

/-- `grantedSizes` past a rejected reservation. -/
@[simp] theorem grantedSizes_cons_rejected (nn : Int) (tr : List AEvent) :
    grantedSizes (AEvent.reserveRejected nn :: tr) = grantedSizes tr := rfl

/-- `grantedSizes` past a burst query. -/
@[simp] theorem grantedSizes_cons_query (c : Int) (tr : List AEvent) :
    grantedSizes (AEvent.burstQuery c :: tr) = grantedSizes tr := rfl

/-- `grantedSizes` past a sleep. -/
@[simp] theorem grantedSizes_cons_sleep (d : Int) (tr : List AEvent) :
    grantedSizes (AEvent.sleep d :: tr) = grantedSizes tr := rfl

/-- `grantedSizes` past a roll-back. -/
@[simp] theorem grantedSizes_cons_cancel (nn : Int) (tr : List AEvent) :
    grantedSizes (AEvent.cancelReservation nn :: tr) = grantedSizes tr := rfl

/-- `rejectedSizes` on the empty trace. -/
@[simp] theorem rejectedSizes_nil : rejectedSizes [] = [] := rfl

/-- `rejectedSizes` past a granted reservation. -/
@[simp] theorem rejectedSizes_cons_ok (nn d : Int) (tr : List AEvent) :
    rejectedSizes (AEvent.reserveOk nn d :: tr) = rejectedSizes tr := rfl

/-- `rejectedSizes` past a rejected reservation. -/
@[simp] theorem rejectedSizes_cons_rejected (nn : Int) (tr : List AEvent) :
    rejectedSizes (AEvent.reserveRejected nn :: tr) = nn :: rejectedSizes tr := rfl

/-- `rejectedSizes` past a burst query. -/
@[simp] theorem rejectedSizes_cons_query (c : Int) (tr : List AEvent) :
    rejectedSizes (AEvent.burstQuery c :: tr) = rejectedSizes tr := rfl

/-- `rejectedSizes` past a sleep. -/
@[simp] theorem rejectedSizes_cons_sleep (d : Int) (tr : List AEvent) :
    rejectedSizes (AEvent.sleep d :: tr) = rejectedSizes tr := rfl

/-- `rejectedSizes` past a roll-back. -/
@[simp] theorem rejectedSizes_cons_cancel (nn : Int) (tr : List AEvent) :
    rejectedSizes (AEvent.cancelReservation nn :: tr) = rejectedSizes tr := rfl

/-- `queries` on the empty trace. -/
@[simp] theorem queries_nil : queries [] = [] := rfl

/-- `queries` past a granted reservation. -/
@[simp] theorem queries_cons_ok (nn d : Int) (tr : List AEvent) :
    queries (AEvent.reserveOk nn d :: tr) = queries tr := rfl

/-- `queries` past a rejected reservation. -/
@[simp] theorem queries_cons_rejected (nn : Int) (tr : List AEvent) :
    queries (AEvent.reserveRejected nn :: tr) = queries tr := rfl

/-- `queries` past a burst query. -/
@[simp] theorem queries_cons_query (c : Int) (tr : List AEvent) :
    queries (AEvent.burstQuery c :: tr) = c :: queries tr := rfl

/-- `queries` past a sleep. -/
@[simp] theorem queries_cons_sleep (d : Int) (tr : List AEvent) :
    queries (AEvent.sleep d :: tr) = queries tr := rfl

/-- `queries` past a roll-back. -/
@[simp] theorem queries_cons_cancel (nn : Int) (tr : List AEvent) :
    queries (AEvent.cancelReservation nn :: tr) = queries tr := rfl

/-- `cancelCount` on the empty trace. -/
@[simp] theorem cancelCount_nil : cancelCount [] = 0 := rfl

/-- `cancelCount` past a granted reservation. -/
@[simp] theorem cancelCount_cons_ok (nn d : Int) (tr : List AEvent) :
    cancelCount (AEvent.reserveOk nn d :: tr) = cancelCount tr := by
  simp [cancelCount, List.countP_cons]

/-- `cancelCount` past a rejected reservation. -/
@[simp] theorem cancelCount_cons_rejected (nn : Int) (tr : List AEvent) :
    cancelCount (AEvent.reserveRejected nn :: tr) = cancelCount tr := by
  simp [cancelCount, List.countP_cons]

/-- `cancelCount` past a burst query. -/
@[simp] theorem cancelCount_cons_query (c : Int) (tr : List AEvent) :
    cancelCount (AEvent.burstQuery c :: tr) = cancelCount tr := by
  simp [cancelCount, List.countP_cons]

/-- `cancelCount` past a sleep. -/
@[simp] theorem cancelCount_cons_sleep (d : Int) (tr : List AEvent) :
    cancelCount (AEvent.sleep d :: tr) = cancelCount tr := by
  simp [cancelCount, List.countP_cons]

/-- `cancelCount` past a roll-back. -/
@[simp] theorem cancelCount_cons_cancel (nn : Int) (tr : List AEvent) :
    cancelCount (AEvent.cancelReservation nn :: tr) = cancelCount tr + 1 := by
  simp [cancelCount, List.countP_cons]

/-- `chunksZ` at zero. -/
theorem chunksZ_zero (b : Int) : chunksZ b 0 = [] := by
  rw [chunksZ]; simp

/-- The burst-sized chunks of `n` sum to exactly `n`. -/
theorem chunksZ_sum (b : Int) (hb : 1 ≤ b) : ∀ (k : Nat) (n : Int), 0 ≤ n →
    n.toNat ≤ k → (chunksZ b n).sum = n := by
  intro k
  induction k with
  | zero =>
    intro n hn hk
    have h0 : n = 0 := by omega
    rw [h0, chunksZ_zero]; rfl
  | succ k ih =>
    intro n hn hk
    rw [chunksZ]
    by_cases h : 1 ≤ b ∧ 1 ≤ n
    · rw [dif_pos h, List.sum_cons, ih (n - min b n) (by omega) (by omega)]
      omega
    · rw [dif_neg h]
      simp only [List.sum_nil]
      omega

/-- Helper: the result of `Writer.Write` when the underlying writer accepts
the whole buffer and the limiter wait succeeds. -/
theorem writerWrite_eq_of_accepts (dst : List Nat → Nat × Option Err)
    (lim : Lim) (p : List Nat)
    (h1 : dst p = (p.length, none)) (h2 : lim p.length = none) :
    writerWrite dst lim p =
      ([WEvent.underlyingWrite p p.length, WEvent.limiterWait p.length],
       p.length, none) := by
  simp [writerWrite, h1, h2]

/-- **C10**: a freshly constructed `DisableableLimiter` is enabled: the
`disabled` flag starts at the zero value `false`, so every `Wait` call
delegates to the wrapped limiter and returns its result unchanged. -/
theorem newDisableableLimiter_starts_enabled (w : Lim) (n : Nat) :
    (newDisableableLimiter w).disabled = false ∧
    (newDisableableLimiter w).wait n = (true, w n) :=
  ⟨rfl, rfl⟩

/-- **C8**: when the `disabled` flag is set, `DisableableLimiter.Wait`
returns success immediately without invoking the wrapped limiter (the `Bool`
component records the invocation, and the wrapped call is the only place the
wait could block); when the flag is clear it delegates to the wrapped limiter
and returns its result unchanged. -/
theorem disableableLimiter_wait_fast_path (e : DisableableLimiter) (n : Nat) :
    (e.disabled = true → e.wait n = (false, none)) ∧
    (e.disabled = false → e.wait n = (true, e.wrapped n)) := by
  refine ⟨fun h => ?_, fun h => ?_⟩ <;> simp [DisableableLimiter.wait, h]

/-- Witness for **C8** at concrete inputs: a disabled limiter ignores a
wrapped limiter that would fail, and an enabled one returns the wrapped
result unchanged. -/
theorem disableableLimiter_wait_fast_path_witness :
    (DisableableLimiter.wait ⟨true, fun k => some (Err.ioErr k)⟩ 3 = (false, none)) ∧
    (DisableableLimiter.wait ⟨false, fun k => some (Err.ioErr k)⟩ 3 =
      (true, some (Err.ioErr 3))) :=
  ⟨(disableableLimiter_wait_fast_path ⟨true, fun k => some (Err.ioErr k)⟩ 3).1 rfl,
   (disableableLimiter_wait_fast_path ⟨false, fun k => some (Err.ioErr k)⟩ 3).2 rfl⟩

/-- **C9**: when the underlying read fails, `Reader.Read` returns the partial
count together with that error verbatim, and the trace contains no limiter
interaction at all. -/
theorem readerRead_error_short_circuits (bs : List Nat) (e : Err) (lim : Lim) :
    readerRead (bs, some e) lim =
      ([REvent.underlyingRead bs (some e)], bs.length, some e) ∧
    readerWaitCount (readerRead (bs, some e) lim).1 = 0 :=
  ⟨rfl, rfl⟩

/-- **C3**: when the underlying writer accepts everything offered and the
limiter wait succeeds, `Writer.Write` returns the input length with no error
and the bytes delivered to the underlying writer equal the input exactly. -/
theorem writerWrite_no_short_write (dst : List Nat → Nat × Option Err)
    (lim : Lim) (p : List Nat)
    (hdst : ∀ q, dst q = (q.length, none))
    (hlim : lim p.length = none) :
    writerWrite dst lim p =
      ([WEvent.underlyingWrite p p.length, WEvent.limiterWait p.length],
       p.length, none) ∧
    writtenBytes (writerWrite dst lim p).1 = p := by
  have h := writerWrite_eq_of_accepts dst lim p (hdst p) hlim
  exact ⟨h, by simp [h, writtenBytes]⟩

/-- Witness for **C3**: writing `[1,2,3]` through an accept-all writer with a
successful limiter returns `(3, nil)` and delivers `[1,2,3]`. -/
theorem writerWrite_no_short_write_witness :
    writerWrite acceptAllWriter (fun _ => none) [1, 2, 3] =
      ([WEvent.underlyingWrite [1, 2, 3] 3, WEvent.limiterWait 3], 3, none) ∧
    writtenBytes (writerWrite acceptAllWriter (fun _ => none) [1, 2, 3]).1 =
      [1, 2, 3] :=
  writerWrite_no_short_write acceptAllWriter (fun _ => none) [1, 2, 3]
    (fun _ => rfl) rfl

/-- Counterexample to **C1** as stated: on the one-byte buffer `[7]`, with an
enabled `DisableableLimiter` and an underlying writer that accepts everything,
`Writer.Write` succeeds but its trace performs the underlying write *first*
and the limiter wait *after* it, so the wait does not complete before the
bytes are written. -/
theorem writerWrite_wait_first_counterexample :
    writerWrite acceptAllWriter enabledNoopLimiter [7] =
      ([WEvent.underlyingWrite [7] 1, WEvent.limiterWait 1], 1, none) ∧
    waitBeforeEveryWrite false
      (writerWrite acceptAllWriter enabledNoopLimiter [7]).1 = false :=
  ⟨rfl, rfl⟩

/-- **C1 (amended)**: for every `Writer.Write` call the underlying write of
the whole buffer comes first, and every limiter interaction comes after it —
the same wait-after ordering as `Reader.Read`, not before. -/
theorem writerWrite_write_then_wait (dst : List Nat → Nat × Option Err)
    (lim : Lim) (p : List Nat) :
    ∃ rest, (writerWrite dst lim p).1 =
        WEvent.underlyingWrite p (dst p).1 :: rest ∧
      ∀ ev ∈ rest, ∃ m, ev = WEvent.limiterWait m := by
  cases hw : (dst p).2 with
  | some e =>
    refine ⟨[], ?_, by simp⟩
    simp [writerWrite, hw]
  | none =>
    cases hl : lim (dst p).1 with
    | some e =>
      refine ⟨[WEvent.limiterWait (dst p).1], ?_, by simp⟩
      simp [writerWrite, hw, hl]
    | none =>
      refine ⟨[WEvent.limiterWait (dst p).1], ?_, by simp⟩
      simp [writerWrite, hw, hl]

/-- Counterexample to **C2** as stated: at rate 1024 B/s with burst 1024
(a full bucket `⟨1024, 1024⟩`), a single `Writer.Write` of the 2048-byte
buffer performs exactly *one* underlying write, of all 2048 bytes — not two
underlying writes of 1024 bytes each.  (The output does equal the input.) -/
theorem writerWrite_chunk_split_counterexample :
    writeSizes (writerWrite acceptAllWriter (adapterLimiter ⟨1024, 1024⟩) p2048).1
      = [2048] ∧
    writeSizes (writerWrite acceptAllWriter (adapterLimiter ⟨1024, 1024⟩) p2048).1
      ≠ [1024, 1024] ∧
    writtenBytes (writerWrite acceptAllWriter (adapterLimiter ⟨1024, 1024⟩) p2048).1
      = p2048 ∧
    (writerWrite acceptAllWriter (adapterLimiter ⟨1024, 1024⟩) p2048).2
      = (2048, none) := by
  have hlen : p2048.length = 2048 := by rw [p2048, List.length_replicate]
  have hlim : adapterLimiter ⟨1024, 1024⟩ 2048 = none := rfl
  have h := writerWrite_eq_of_accepts acceptAllWriter (adapterLimiter ⟨1024, 1024⟩)
    p2048 rfl (by rw [hlen]; exact hlim)
  refine ⟨?_, ?_, ?_, ?_⟩ <;> rw [h] <;>
    simp [writeSizes, writtenBytes, hlen]

/-- **C2 (amended)**: `Writer.Write` passes its whole buffer to the underlying
writer in a single write and then waits for the full byte count; the
decomposition into burst-sized pieces happens inside `RateLimiterAdapter.Wait`
as sequential reservations.  For rate 1024 B/s with burst 1024, a single write
of the 2048-byte buffer performs exactly one underlying write of 2048 bytes,
the adapter makes exactly two reservations of 1024 each, and the output equals
the input. -/
theorem writerWrite_single_write_adapter_chunks :
    (writerWrite acceptAllWriter (adapterLimiter ⟨1024, 1024⟩) p2048).2
      = (2048, none) ∧
    writeSizes (writerWrite acceptAllWriter (adapterLimiter ⟨1024, 1024⟩) p2048).1
      = [2048] ∧
    writtenBytes (writerWrite acceptAllWriter (adapterLimiter ⟨1024, 1024⟩) p2048).1
      = p2048 ∧
    adapterWait 2050 (fun _ => false) 0 none 2048 ⟨1024, 1024⟩ =
      some ([AEvent.reserveRejected 2048, AEvent.burstQuery 1024,
             AEvent.reserveOk 1024 0, AEvent.reserveOk 1024 1024,
             AEvent.sleep 1024],
            Except.ok (), ⟨1024, 0⟩) ∧
    grantedSizes [AEvent.reserveRejected 2048, AEvent.burstQuery 1024,
             AEvent.reserveOk 1024 0, AEvent.reserveOk 1024 1024,
             AEvent.sleep 1024] = [1024, 1024] := by
  have hlen : p2048.length = 2048 := by rw [p2048, List.length_replicate]
  have hlim : adapterLimiter ⟨1024, 1024⟩ 2048 = none := rfl
  have h := writerWrite_eq_of_accepts acceptAllWriter (adapterLimiter ⟨1024, 1024⟩)
    p2048 rfl (by rw [hlen]; exact hlim)
  refine ⟨?_, ?_, ?_, rfl, rfl⟩ <;> rw [h] <;>
    simp [writeSizes, writtenBytes, hlen]

/-- Counterexample to **C6** as stated: on a bucket in deficit
(level `-1024`, as arises while another sharer of the limiter is waiting out
a reservation), `RateLimiterAdapter.Wait` with `n = 0` does succeed, but only
after sleeping out a positive delay of 1024 ticks — it does not return
immediately and without any delay. -/
theorem adapterWait_nonpos_counterexample :
    adapterWait 3 (fun _ => false) 0 none 0 ⟨1024, -1024⟩ =
      some ([AEvent.reserveOk 0 1024, AEvent.sleep 1024], Except.ok (),
            ⟨1024, 0⟩) ∧
    sleeps [AEvent.reserveOk 0 1024, AEvent.sleep 1024] = [1024] :=
  ⟨rfl, rfl⟩

/-- **C6 (amended)**: for every `n ≤ 0`, `RateLimiterAdapter.Wait` succeeds
after a single reservation round; whenever the bucket is not in deficit
(level ≥ 0, which holds in every state reachable by sequential use of a
fresh bucket) it returns immediately, with a zero-delay reservation and no
sleep. -/
theorem adapterWait_nonpos_immediate (fuel idx : Nat) (cancelAt : Nat → Bool)
    (n : Int) (b : Bucket) (hn : n ≤ 0) (hlev : 0 ≤ b.level)
    (hburst : 0 ≤ b.burst) :
    adapterWait (fuel+1) cancelAt idx none n b =
      some ([AEvent.reserveOk n 0], Except.ok (), ⟨b.burst, b.level - n⟩) := by
  have h1 : ¬ b.burst < n := by omega
  have h2 : max 0 (n - b.level) = 0 := by omega
  have h3 : ¬ (0:Int) < 0 := by omega
  have h4 : n - n ≤ 0 := by omega
  simp [adapterWait, chunkOf, reserveN, h1, h2, h3, h4]

/-- Witness for **C6 (amended)**: `Wait` with `n = 0` on the fresh bucket
`⟨4, 4⟩` returns success immediately with no sleep. -/
theorem adapterWait_nonpos_immediate_witness :
    adapterWait 1 (fun _ => false) 0 none 0 ⟨4, 4⟩ =
      some ([AEvent.reserveOk 0 0], Except.ok (), ⟨4, 4⟩) :=
  adapterWait_nonpos_immediate 0 0 (fun _ => false) 0 ⟨4, 4⟩ (by decide)
    (by decide) (by decide)

/-- Helper for **C4**: once the ceiling has been refreshed to a burst capacity
of `0`, every iteration requests a reservation of `min(0, n) = 0` tokens,
which is always granted with nothing consumed, so `n` never decreases and the
loop runs forever: for every amount of fuel the call has not returned. -/
theorem adapterWait_burst_zero_aux (fuel : Nat) :
    ∀ (idx : Nat) (n : Int) (b : Bucket), b.burst = 0 → 1 ≤ n →
    adapterWait fuel (fun _ => false) idx (some 0) n b = none := by
  induction fuel with
  | zero => intro idx n b _ _; rfl
  | succ fuel ih =>
    intro idx n b hb hn
    have hmin : chunkOf (some 0) n = 0 := by
      simp [chunkOf]; omega
    have hres : reserveN b 0 = some (max 0 (0 - b.level), ⟨b.burst, b.level⟩) := by
      simp [reserveN, hb]
    have h4 : ¬ n - 0 ≤ 0 := by omega
    rcases le_or_lt 0 b.level with hlev | hlev
    · have hd : max 0 (0 - b.level) = 0 := by omega
      have h3 : ¬ (0:Int) < 0 := by omega
      simp only [adapterWait, hmin, hres, hd, if_neg h3, if_neg h4]
      rw [ih idx (n - 0) ⟨b.burst, b.level⟩ (by simpa using hb) (by omega)]
    · have hd : max 0 (0 - b.level) = -b.level := by omega
      have h3 : (0:Int) < -b.level := by omega
      simp only [adapterWait, hmin, hres, hd, if_pos h3, Bool.false_eq_true,
        if_false, if_neg h4]
      rw [ih (idx+1) (n - 0)
        (advanceBucket ⟨b.burst, b.level⟩ (-b.level))
        (by simpa [advanceBucket] using hb) (by omega)]

/-- **C4**: contrary to the claim (and the spec's error-handling design),
`RateLimiterAdapter.Wait` with a request that can never be granted — here
any `n ≥ 1` against a bucket whose burst capacity is `0` — does *not* return
a non-retryable unsatisfiable-reservation error: the first reservation is
rejected, the ceiling refreshes to `0`, and the loop then spins forever on
zero-token reservations, for every amount of fuel.  (Those reservations are
granted with zero delay whenever the level is non-negative, so the `select`
that would notice `ctx.Done()` is not even reached.) -/
theorem rateLimiterAdapter_wait_burst_zero_loops (fuel idx : Nat) (n : Int)
    (b : Bucket) (hb : b.burst = 0) (hn : 1 ≤ n) :
    adapterWait fuel (fun _ => false) idx none n b = none := by
  cases fuel with
  | zero => rfl
  | succ fuel =>
    have hlt : b.burst < chunkOf none n := by simp [chunkOf]; omega
    have hres : reserveN b (chunkOf none n) = none := by simp [reserveN, hlt]
    simp only [adapterWait, hres]
    rw [hb, adapterWait_burst_zero_aux fuel idx n b hb hn]

/-- Witness for **C4**: `Wait(ctx, 1)` against a zero-burst bucket has not
returned after 5 loop iterations. -/
theorem rateLimiterAdapter_wait_burst_zero_loops_witness :
    adapterWait 5 (fun _ => false) 0 none 1 ⟨0, 0⟩ = none :=
  rateLimiterAdapter_wait_burst_zero_loops 5 0 1 ⟨0, 0⟩ (by decide) (by decide)


/-- Helper for **C5**: once the ceiling has been refreshed to the real burst
capacity, the loop grants a sequence of reservations of sizes
`min(burst, remaining)` — exactly `chunksZ b.burst n` — with no further
rejections or capacity queries, and exits successfully. -/
theorem adapterWait_loop_chunks : ∀ (k idx : Nat) (n : Int) (b : Bucket),
    1 ≤ n → 1 ≤ b.burst → n.toNat ≤ k →
    ∃ tr b', adapterWait (k+1) (fun _ => false) idx (some b.burst) n b =
        some (tr, Except.ok (), b') ∧
      grantedSizes tr = chunksZ b.burst n ∧
      rejectedSizes tr = [] ∧ queries tr = [] := by
  intro k
  induction k with
  | zero => intro idx n b hn hb hk; omega
  | succ k ih =>
    intro idx n b hn hb hk
    have hok : ¬ b.burst < chunkOf (some b.burst) n := by
      simp only [chunkOf]; omega
    have hres : reserveN b (chunkOf (some b.burst) n) =
        some (max 0 (chunkOf (some b.burst) n - b.level),
              ⟨b.burst, b.level - chunkOf (some b.burst) n⟩) := by
      simp [reserveN, hok]
    have hchunks : chunksZ b.burst n =
        chunkOf (some b.burst) n :: chunksZ b.burst (n - chunkOf (some b.burst) n) := by
      rw [chunksZ, dif_pos ⟨hb, hn⟩]; rfl
    by_cases hterm : n - chunkOf (some b.burst) n ≤ 0
    · have hz : chunksZ b.burst (n - chunkOf (some b.burst) n) = [] := by
        have h0 : n - chunkOf (some b.burst) n = 0 := by
          simp only [chunkOf] at hterm ⊢; omega
        rw [h0, chunksZ_zero]
      by_cases hd : 0 < max 0 (chunkOf (some b.burst) n - b.level)
      · exact ⟨_, _, adapterWait_step_sleep_done (k+1) idx _ _ _ _ _ _ hres hd rfl hterm,
          by simp [hchunks, hz], by simp, by simp⟩
      · exact ⟨_, _, adapterWait_step_nosleep_done (k+1) idx _ _ _ _ _ _ hres hd hterm,
          by simp [hchunks, hz], by simp, by simp⟩
    · have hrem1 : 1 ≤ n - chunkOf (some b.burst) n := by omega
      have hremk : (n - chunkOf (some b.burst) n).toNat ≤ k := by
        simp only [chunkOf] at hterm ⊢; omega
      by_cases hd : 0 < max 0 (chunkOf (some b.burst) n - b.level)
      · obtain ⟨tr', b'', hrun, hg, hr, hq⟩ := ih (idx+1) (n - chunkOf (some b.burst) n)
          ⟨b.burst, min b.burst (b.level - chunkOf (some b.burst) n +
            max 0 (chunkOf (some b.burst) n - b.level))⟩ hrem1 hb hremk
        dsimp only at hrun hg
        refine ⟨AEvent.reserveOk (chunkOf (some b.burst) n)
            (max 0 (chunkOf (some b.burst) n - b.level)) ::
          AEvent.sleep (max 0 (chunkOf (some b.burst) n - b.level)) :: tr',
          b'', ?_, ?_, ?_, ?_⟩
        · rw [adapterWait_step_sleep_next (k+1) idx _ _ _ _ _ _ hres hd rfl hterm,
            advanceBucket_mk, hrun]
        · simp [hchunks, hg]
        · simpa using hr
        · simpa using hq
      · obtain ⟨tr', b'', hrun, hg, hr, hq⟩ := ih idx (n - chunkOf (some b.burst) n)
          ⟨b.burst, b.level - chunkOf (some b.burst) n⟩ hrem1 hb hremk
        dsimp only at hrun hg
        refine ⟨AEvent.reserveOk (chunkOf (some b.burst) n)
            (max 0 (chunkOf (some b.burst) n - b.level)) :: tr',
          b'', ?_, ?_, ?_, ?_⟩
        · rw [adapterWait_step_nosleep_next (k+1) idx _ _ _ _ _ _ hres hd hterm, hrun]
        · simp [hchunks, hg]
        · simpa using hr
        · simpa using hq


/-- **C5**: for `n ≥ 1` against a bucket with burst capacity `≥ 1` (and no
cancellation), `RateLimiterAdapter.Wait` succeeds, decomposing `n` into
sequential reservations of `min(ceiling, remaining)` whose sizes are exactly
`chunksZ b.burst n` and whose total is exactly `n`; when `n` fits in the burst
there is no rejection and no capacity query, and when it does not, the single
rejected reservation (which consumes nothing — the same full amount `n` is
still granted afterwards) is followed by exactly one capacity query before the
retry, with no further rejections or queries. -/
theorem rateLimiterAdapter_wait_decomposition (b : Bucket) (n : Int) (idx : Nat)
    (hn : 1 ≤ n) (hb : 1 ≤ b.burst) :
    ∃ tr b', adapterWait (n.toNat + 2) (fun _ => false) idx none n b =
        some (tr, Except.ok (), b') ∧
      grantedSizes tr = chunksZ b.burst n ∧
      (grantedSizes tr).sum = n ∧
      (n ≤ b.burst → rejectedSizes tr = [] ∧ queries tr = []) ∧
      (b.burst < n →
        ∃ tr0, tr = AEvent.reserveRejected n :: AEvent.burstQuery b.burst :: tr0 ∧
          rejectedSizes tr0 = [] ∧ queries tr0 = []) := by
  by_cases hcase : n ≤ b.burst
  · have hok : ¬ b.burst < chunkOf none n := by simp only [chunkOf]; omega
    have hres : reserveN b (chunkOf none n) =
        some (max 0 (chunkOf none n - b.level),
              ⟨b.burst, b.level - chunkOf none n⟩) := by
      simp [reserveN, hok]
    have hterm : n - chunkOf none n ≤ 0 := by simp only [chunkOf]; omega
    have hchunks1 : chunksZ b.burst n = [n] := by
      rw [chunksZ, dif_pos ⟨hb, hn⟩]
      have hmn : min b.burst n = n := by omega
      rw [hmn]
      simp [chunksZ_zero]
    by_cases hd : 0 < max 0 (chunkOf none n - b.level)
    · refine ⟨[AEvent.reserveOk (chunkOf none n) (max 0 (chunkOf none n - b.level)),
          AEvent.sleep (max 0 (chunkOf none n - b.level))],
        advanceBucket ⟨b.burst, b.level - chunkOf none n⟩
          (max 0 (chunkOf none n - b.level)), ?_, ?_, ?_, ?_, ?_⟩
      · show adapterWait (n.toNat + 1 + 1) (fun _ => false) idx none n b = _
        exact adapterWait_step_sleep_done (n.toNat + 1) idx _ none n _ b _ hres hd rfl hterm
      · simp [chunkOf, hchunks1]
      · simp [chunkOf]
      · simp
      · intro h; omega
    · refine ⟨[AEvent.reserveOk (chunkOf none n) (max 0 (chunkOf none n - b.level))],
        ⟨b.burst, b.level - chunkOf none n⟩, ?_, ?_, ?_, ?_, ?_⟩
      · show adapterWait (n.toNat + 1 + 1) (fun _ => false) idx none n b = _
        exact adapterWait_step_nosleep_done (n.toNat + 1) idx _ none n _ b _ hres hd hterm
      · simp [chunkOf, hchunks1]
      · simp [chunkOf]
      · simp
      · intro h; omega
  · have hlt : b.burst < chunkOf none n := by simp only [chunkOf]; omega
    have hres : reserveN b (chunkOf none n) = none := by simp [reserveN, hlt]
    obtain ⟨tr0, b', hrun, hg, hr, hq⟩ :=
      adapterWait_loop_chunks n.toNat idx n b hn hb (le_refl _)
    refine ⟨AEvent.reserveRejected n :: AEvent.burstQuery b.burst :: tr0, b',
      ?_, ?_, ?_, ?_, ?_⟩
    · show adapterWait (n.toNat + 1 + 1) (fun _ => false) idx none n b = _
      rw [adapterWait_step_rejected (n.toNat + 1) idx _ none n b hres, hrun]
      rfl
    · simp [hg]
    · simp [hg, chunksZ_sum b.burst hb n.toNat n (by omega) (le_refl _)]
    · intro h; omega
    · intro _; exact ⟨tr0, rfl, hr, hq⟩

/-- Witness for **C5**: `Wait(ctx, 5)` on a bucket with burst 2 decomposes
into reservations `[2, 2, 1]` after one rejection and one capacity query. -/
theorem rateLimiterAdapter_wait_decomposition_witness :
    1 ≤ (5:Int) ∧ 1 ≤ (⟨2, 2⟩ : Bucket).burst ∧
    ∃ tr b', adapterWait 7 (fun _ => false) 0 none 5 ⟨2, 2⟩ =
        some (tr, Except.ok (), b') ∧
      grantedSizes tr = chunksZ 2 5 ∧
      (grantedSizes tr).sum = 5 ∧
      ((5:Int) ≤ 2 → rejectedSizes tr = [] ∧ queries tr = []) ∧
      ((2:Int) < 5 →
        ∃ tr0, tr = AEvent.reserveRejected 5 :: AEvent.burstQuery 2 :: tr0 ∧
          rejectedSizes tr0 = [] ∧ queries tr0 = []) :=
  ⟨by decide, by decide,
   rateLimiterAdapter_wait_decomposition ⟨2, 2⟩ 5 0 (by decide) (by decide)⟩


/-- Helper for **C7**: in every terminating `adapterWait` run, a successful
result has no reservation roll-back at all, and a cancelled result's trace is
a roll-back-free prefix followed by exactly one final roll-back. -/
theorem adapterWait_cancel_shape : ∀ (fuel idx : Nat) (cancelAt : Nat → Bool)
    (ceiling : Option Int) (n : Int) (b : Bucket) (tr : List AEvent)
    (r : Except CtxErr Unit) (b' : Bucket),
    adapterWait fuel cancelAt idx ceiling n b = some (tr, r, b') →
    (r = Except.ok () → cancelCount tr = 0) ∧
    (r = Except.error CtxErr.cancelled →
      ∃ pre nn, tr = pre ++ [AEvent.cancelReservation nn] ∧ cancelCount pre = 0) := by
  intro fuel
  induction fuel with
  | zero =>
    intro idx cancelAt ceiling n b tr r b' h
    exact absurd h (by simp [adapterWait])
  | succ fuel ih =>
    intro idx cancelAt ceiling n b tr r b' h
    rcases hres : reserveN b (chunkOf ceiling n) with _ | ⟨d, b1⟩
    · rw [adapterWait_step_rejected fuel idx cancelAt ceiling n b hres] at h
      rcases hrec : adapterWait fuel cancelAt idx (some b.burst) n b with _ | ⟨tr2, r2, b2⟩
      · rw [hrec] at h; exact absurd h (by simp)
      · rw [hrec] at h
        simp only [Option.some.injEq, Prod.mk.injEq] at h
        obtain ⟨htr, hr2, hb2⟩ := h
        obtain ⟨h1, h2⟩ := ih idx cancelAt (some b.burst) n b tr2 r2 b2 hrec
        subst htr hr2
        constructor
        · intro hok; simp [h1 hok]
        · intro herr
          obtain ⟨pre, nn, hpre, hcnt⟩ := h2 herr
          exact ⟨AEvent.reserveRejected (chunkOf ceiling n) ::
            AEvent.burstQuery b.burst :: pre, nn, by simp [hpre], by simp [hcnt]⟩
    · by_cases hd : 0 < d
      · cases hc : cancelAt idx
        · by_cases ht : n - chunkOf ceiling n ≤ 0
          · rw [adapterWait_step_sleep_done fuel idx cancelAt ceiling n d b b1
              hres hd hc ht] at h
            simp only [Option.some.injEq, Prod.mk.injEq] at h
            obtain ⟨htr, hr2, hb2⟩ := h
            subst htr hr2
            exact ⟨fun _ => by simp, fun herr => by cases herr⟩
          · rw [adapterWait_step_sleep_next fuel idx cancelAt ceiling n d b b1
              hres hd hc ht] at h
            rcases hrec : adapterWait fuel cancelAt (idx+1) ceiling
                (n - chunkOf ceiling n) (advanceBucket b1 d) with _ | ⟨tr2, r2, b2⟩
            · rw [hrec] at h; exact absurd h (by simp)
            · rw [hrec] at h
              simp only [Option.some.injEq, Prod.mk.injEq] at h
              obtain ⟨htr, hr2, hb2⟩ := h
              obtain ⟨h1, h2⟩ := ih (idx+1) cancelAt ceiling
                (n - chunkOf ceiling n) (advanceBucket b1 d) tr2 r2 b2 hrec
              subst htr hr2
              constructor
              · intro hok; simp [h1 hok]
              · intro herr
                obtain ⟨pre, nn, hpre, hcnt⟩ := h2 herr
                exact ⟨AEvent.reserveOk (chunkOf ceiling n) d ::
                  AEvent.sleep d :: pre, nn, by simp [hpre], by simp [hcnt]⟩
        · rw [adapterWait_step_cancel fuel idx cancelAt ceiling n d b b1
            hres hd hc] at h
          simp only [Option.some.injEq, Prod.mk.injEq] at h
          obtain ⟨htr, hr2, hb2⟩ := h
          subst htr hr2
          constructor
          · intro hok; cases hok
          · intro _
            exact ⟨[AEvent.reserveOk (chunkOf ceiling n) d],
              chunkOf ceiling n, rfl, by simp⟩
      · by_cases ht : n - chunkOf ceiling n ≤ 0
        · rw [adapterWait_step_nosleep_done fuel idx cancelAt ceiling n d b b1
            hres hd ht] at h
          simp only [Option.some.injEq, Prod.mk.injEq] at h
          obtain ⟨htr, hr2, hb2⟩ := h
          subst htr hr2
          exact ⟨fun _ => by simp, fun herr => by cases herr⟩
        · rw [adapterWait_step_nosleep_next fuel idx cancelAt ceiling n d b b1
            hres hd ht] at h
          rcases hrec : adapterWait fuel cancelAt idx ceiling
              (n - chunkOf ceiling n) b1 with _ | ⟨tr2, r2, b2⟩
          · rw [hrec] at h; exact absurd h (by simp)
          · rw [hrec] at h
            simp only [Option.some.injEq, Prod.mk.injEq] at h
            obtain ⟨htr, hr2, hb2⟩ := h
            obtain ⟨h1, h2⟩ := ih idx cancelAt ceiling
              (n - chunkOf ceiling n) b1 tr2 r2 b2 hrec
            subst htr hr2
            constructor
            · intro hok; simp [h1 hok]
            · intro herr
              obtain ⟨pre, nn, hpre, hcnt⟩ := h2 herr
              exact ⟨AEvent.reserveOk (chunkOf ceiling n) d :: pre, nn,
                by simp [hpre], by simp [hcnt]⟩


/-- **C7**: if the context fires while `RateLimiterAdapter.Wait` is waiting
out a reservation's positive delay, the call returns a cancellation error
immediately — the trace ends right after the roll-back, with no sleep — and
the not-yet-elapsed reservation is rolled back, restoring the bucket level to
its value before that reservation; moreover in any cancelled run the final
roll-back is the only one, so capacity consumed by earlier, already-elapsed
reservations is not refunded. -/
theorem rateLimiterAdapter_wait_cancellation (fuel idx : Nat)
    (cancelAt : Nat → Bool) (ceiling : Option Int) (n : Int) (b : Bucket) :
    (∀ d b1, reserveN b (chunkOf ceiling n) = some (d, b1) → 0 < d →
       cancelAt idx = true →
       adapterWait (fuel+1) cancelAt idx ceiling n b =
         some ([AEvent.reserveOk (chunkOf ceiling n) d,
                AEvent.cancelReservation (chunkOf ceiling n)],
               Except.error CtxErr.cancelled,
               cancelReservation b1 (chunkOf ceiling n)) ∧
       (cancelReservation b1 (chunkOf ceiling n)).level = b.level) ∧
    (∀ tr r b', adapterWait fuel cancelAt idx ceiling n b = some (tr, r, b') →
       r = Except.error CtxErr.cancelled →
       ∃ pre nn, tr = pre ++ [AEvent.cancelReservation nn] ∧
         cancelCount pre = 0) := by
  constructor
  · intro d b1 h hd hc
    refine ⟨adapterWait_step_cancel fuel idx cancelAt ceiling n d b b1 h hd hc, ?_⟩
    have hb1 : b1.level = b.level - chunkOf ceiling n := by
      unfold reserveN at h
      split at h
      · exact absurd h (by simp)
      · simp only [Option.some.injEq, Prod.mk.injEq] at h
        rw [← h.2]
    simp [cancelReservation, hb1]
  · intro tr r b' h hr
    exact (adapterWait_cancel_shape fuel idx cancelAt ceiling n b tr r b' h).2 hr

/-- Witness for **C7**: a wait for 3 tokens on an empty bucket of burst 4 is
cancelled during its delay; the reservation is rolled back, the level returns
to 0, and the error is the context's cancellation error. -/
theorem rateLimiterAdapter_wait_cancellation_witness :
    adapterWait 1 (fun _ => true) 0 none 3 ⟨4, 0⟩ =
      some ([AEvent.reserveOk 3 3, AEvent.cancelReservation 3],
            Except.error CtxErr.cancelled, cancelReservation ⟨4, -3⟩ 3) ∧
    (cancelReservation ⟨4, -3⟩ 3).level = (⟨4, 0⟩ : Bucket).level :=
  (rateLimiterAdapter_wait_cancellation 0 0 (fun _ => true) none 3 ⟨4, 0⟩).1
    3 ⟨4, -3⟩ (by decide) (by decide) rfl

end Throughput
